import Mathlib

/-!
Verification of the guidewire CDA-to-Delta incremental batch processor.

This file is a shallow embedding of the per-table batch processor
(`src/guidewire/batch.py`) and the Delta-log facade
(`src/guidewire/delta_log.py`).  Pure Python functions become Lean
functions; the object store is modelled as an abstract `Fs` record of
listing and schema-reading functions; Python exceptions become
`Except`/`Option` values that are threaded explicitly.  The `Result`
accumulator and the Delta commit log are threaded as explicit state
(`BatchState`).  Machine integers are `Int`/`Nat` (Python integers are
unbounded, so no wrap-around modelling is needed).
-/

namespace Guidewire

/-! ## Python string and integer primitives -/

/-- Characters after the last `/` of a string, i.e. Python
`s.split("/")[-1]` (pyarrow `FileInfo.base_name` is likewise the final
path component). -/
def lastSegAux : List Char → List Char → List Char
  | [], acc => acc.reverse
  | c :: cs, acc => if c = '/' then lastSegAux cs [] else lastSegAux cs (c :: acc)

def lastSeg (s : String) : String := String.mk (lastSegAux s.toList [])

/-- Numeric value of a list of decimal digit characters. -/
def digitsVal (cs : List Char) : Nat :=
  cs.foldl (fun n c => n * 10 + (c.toNat - 48)) 0

/-- Python `int(s)` on a string: optional surrounding whitespace, an
optional sign, then at least one decimal digit; anything else raises
`ValueError`, modelled as `none`. -/
def pyParseInt (s : String) : Option Int :=
  let cs := ((s.toList.dropWhile Char.isWhitespace).reverse.dropWhile
    Char.isWhitespace).reverse
  match cs with
  | '-' :: ds =>
    if ds.isEmpty || !(ds.all Char.isDigit) then none else some (-(digitsVal ds : Int))
  | '+' :: ds =>
    if ds.isEmpty || !(ds.all Char.isDigit) then none else some (digitsVal ds : Int)
  | ds =>
    if ds.isEmpty || !(ds.all Char.isDigit) then none else some (digitsVal ds : Int)

/-- Python `s.lstrip(chars)`: removes leading characters belonging to the
character SET `chars` (not the prefix `chars`). -/
def pyLstrip (chars : String) (s : String) : String :=
  String.mk (s.toList.dropWhile (fun c => c ∈ chars.toList))

/-- Python `s.rstrip(chars)`: removes trailing characters belonging to the
character set `chars`. -/
def pyRstrip (chars : String) (s : String) : String :=
  String.mk ((s.toList.reverse.dropWhile (fun c => c ∈ chars.toList)).reverse)

/-- Code-point lexicographic comparison of strings, as Python `<=` on
`str` (used by Python `sorted` on path strings). -/
def listCharLeB : List Char → List Char → Bool
  | [], _ => true
  | _ :: _, [] => false
  | a :: as, b :: bs =>
    if a.toNat < b.toNat then true
    else if a.toNat = b.toNat then listCharLeB as bs
    else false

def pathLe (a b : String) : Prop := listCharLeB a.toList b.toList = true

instance : DecidableRel pathLe := fun a b =>
  inferInstanceAs (Decidable (listCharLeB a.toList b.toList = true))

/-- Python `sorted` on a list of path strings (stable, code-point order). -/
def sortPaths (l : List String) : List String := List.insertionSort pathLe l

/-! ## Data model: object store entries and parquet descriptors -/

inductive FType where
  | file
  | dir
deriving DecidableEq, Repr

/-- An entry returned by `fs.get_file_info(directory)` (pyarrow
`FileInfo`): path, type, size in bytes and modification time. -/
structure FileInfo where
  path : String
  ftype : FType
  size : Nat
  mtime : Nat
deriving DecidableEq, Repr

/-- pyarrow derives `base_name` from the path: its final component. -/
def FileInfo.baseName (f : FileInfo) : String := lastSeg f.path

/-- Parquet descriptor built by `Batch._get_parquet_list`. -/
structure ParquetInfo where
  relative_path : String
  path : String
  last_modified : Nat
  size : Nat
deriving DecidableEq, Repr

/-- Parquet schemas are treated as opaque tokens: the processor only
passes them through, never inspects them. -/
abbrev Schema := String

/-- Abstract object-store facade: directory listing (which can fail with
a `StorageError`) and parquet-footer schema reading (which can fail). -/
structure Fs where
  listDir : String → Except String (List FileInfo)
  readSchema : String → Option Schema

/-! ## Delta log (`src/guidewire/delta_log.py`) -/

inductive Mode where
  | append
  | overwrite
deriving DecidableEq, Repr

/-- One committed Delta transaction.  `requestedMode` is the `mode`
argument passed to `add_transaction`; `effectiveMode` is the mode of the
underlying operation, which is `overwrite` when the transaction creates
the table (`create_table_with_add_actions` is always called with
`mode="overwrite"`). -/
structure Commit where
  requestedMode : Mode
  effectiveMode : Mode
  watermark : Int
  schema_timestamp : Int
  paths : List String
deriving DecidableEq, Repr

/-- State of the target Delta table: whether the handle is bound to an
existing table (`delta_log is not None`) and the ordered commit log.
Single-writer per table is assumed (spec section 5), so the re-probe
`_log_exists` inside `add_transaction` observes no new table. -/
structure DeltaState where
  bound : Bool
  commits : List Commit
deriving DecidableEq, Repr

/-- `BaseDeltaLog._validate_parquet_info`: `path` must be a non-empty
string; `size` and `last_modified` are `Nat` here, so the non-negativity
checks of the Python code hold by construction. -/
def validParquetInfo (p : ParquetInfo) : Bool := !p.path.isEmpty

def emptyParquetsMsg : String :=
  "DeltaValidationError: At least one parquet file must be provided"

/-- `BaseDeltaLog.add_transaction`.  The `mode` argument is one of the
two valid modes by the type `Mode`, so the `VALID_MODES` check cannot
fail.  An empty parquet list raises `DeltaValidationError`.  If the
handle is unbound the commit creates the table (effective mode
`overwrite`); otherwise a write transaction with the requested mode is
appended.  The commit records `watermark` and `schema_timestamp` as its
custom metadata. -/
def addTransaction (st : DeltaState) (parquets : List ParquetInfo)
    (watermark schema_timestamp : Int) (mode : Mode) : Except String DeltaState :=
  if parquets.isEmpty then
    Except.error emptyParquetsMsg
  else if !(parquets.all validParquetInfo) then
    Except.error "DeltaValidationError: invalid parquet info"
  else
    Except.ok
      { bound := true
        commits := st.commits ++
          [{ requestedMode := mode
             effectiveMode := if st.bound then mode else Mode.overwrite
             watermark := watermark
             schema_timestamp := schema_timestamp
             paths := parquets.map ParquetInfo.path }] }

/-- One entry of `DeltaTable.history()`: only its `operationParameters`
string map is consulted (`operationMetrics` is read into a dead local). -/
structure HistEntry where
  operationParameters : List (String × String)
deriving DecidableEq, Repr

/-- Python `dict.get(key, default)` restricted to presence: the first
binding of `key`, if any. -/
def lookupParam (ps : List (String × String)) (k : String) : Option String :=
  (ps.find? (fun p => p.1 == k)).map Prod.snd

/-- `int(operation_parameters.get(k, 0))`: a missing key defaults to the
integer `0` (which trivially parses); a present value goes through
Python `int`, which can raise, modelled as `none`. -/
def paramVal (ps : List (String × String)) (k : String) : Option Int :=
  match lookupParam ps k with
  | none => some 0
  | some s => pyParseInt s

/-- `BaseDeltaLog._get_watermark_from_log`.  Inputs: whether the handle
is bound, and the result of `delta_log.history()` (which can raise).
Output: the `(watermark, schema_timestamp)` pair and whether a warning
was logged.  The function is total: it never raises. -/
def getWatermarkFromLog (bound : Bool)
    (history : Except String (List HistEntry)) : (Int × Int) × Bool :=
  if !bound then ((0, 0), false)
  else
    match history with
    | Except.error _ => ((0, 0), true)
    | Except.ok [] => ((0, 0), false)
    | Except.ok (latest :: _) =>
      match paramVal latest.operationParameters "watermark",
            paramVal latest.operationParameters "schema_timestamp" with
      | some w, some t => ((w, t), false)
      | _, _ => ((0, 0), true)

/-! ## Batch processing (`src/guidewire/batch.py`) -/

/-- Directory-typed entries of a listing. -/
def dirEntries (listed : List FileInfo) : List FileInfo :=
  listed.filter (fun f => f.ftype == FType.dir)

/-- `full_list` of `Batch._get_dir_list`: all directory paths, sorted. -/
def fullList (listed : List FileInfo) : List String :=
  sortPaths ((dirEntries listed).map FileInfo.path)

/-- The paths of directory entries whose `int(base_name)` is strictly
above the low watermark.  Python evaluates `int(path.base_name)` on
every directory entry of the generator, so the first non-numeric
directory name raises `ValueError` out of `_get_dir_list`. -/
def partVals (low : Int) : List FileInfo → Except String (List String)
  | [] => Except.ok []
  | f :: fs =>
    match pyParseInt f.baseName with
    | none => Except.error ("ValueError: invalid literal for int: " ++ f.baseName)
    | some v =>
      (partVals low fs).map (fun rest => if low < v then f.path :: rest else rest)

/-- `Batch._get_dir_list`: returns `(is_part_way, directory_list)`. -/
def getDirList (low : Int) (listed : List FileInfo) :
    Except String (Bool × List String) :=
  (partVals low (dirEntries listed)).map (fun pp =>
    let part := sortPaths pp
    let full := fullList listed
    if part = [] then (true, [])
    else if part.length < full.length then (true, part)
    else (false, full))

/-- `Batch._get_parquet_list`: file entries ending in `.parquet`, with
the `s3://` scheme prepended to the stored path. -/
def getParquetList (listed : List FileInfo) : List ParquetInfo :=
  (listed.filter (fun f =>
      f.ftype == FType.file && ".parquet".toList.isSuffixOf f.path.toList)).map
    (fun f =>
      { relative_path := f.path
        path := "s3://" ++ f.path
        last_modified := f.mtime
        size := f.size })

/-- Ordering by parquet `size`, the key of `file_list.sort` in
`Batch._schema_finder`. -/
def bySizeLe (a b : ParquetInfo) : Prop := a.size ≤ b.size

instance : DecidableRel bySizeLe := fun a b =>
  inferInstanceAs (Decidable (a.size ≤ b.size))

instance : IsTotal ParquetInfo bySizeLe := ⟨fun a b => Nat.le_total a.size b.size⟩

instance : IsTrans ParquetInfo bySizeLe := ⟨fun _ _ _ => Nat.le_trans⟩

/-- Python `list.sort(key=size)`: stable, ascending by size. -/
def sortParquets (files : List ParquetInfo) : List ParquetInfo :=
  List.insertionSort bySizeLe files

def schemaWarnMsg (p : ParquetInfo) : String :=
  "Failed to read schema from " ++ p.relative_path

/-- The try-loop of `Batch._schema_finder`: attempt each file in order,
returning the first schema that reads successfully together with the
warnings logged for the earlier failures. -/
def tryFiles (rs : String → Option Schema) :
    List ParquetInfo → Option Schema × List String
  | [] => (none, [])
  | f :: fs =>
    match rs f.relative_path with
    | some sch => (some sch, [])
    | none =>
      let r := tryFiles rs fs
      (r.1, schemaWarnMsg f :: r.2)

/-- `Batch._schema_finder`: sorts the candidate files by size in place,
then tries them smallest-first. -/
def schemaFinder (rs : String → Option Schema) (files : List ParquetInfo) :
    Option Schema × List String :=
  tryFiles rs (sortParquets files)

/-- Mutable per-run accumulator mirroring `Batch.result` plus the Delta
commit log.  `process_finish_version` tracks nothing the claims need and
is omitted. -/
structure BatchState where
  delta : DeltaState
  watermarks : List Int
  schema_timestamps : List Int
  errors : List String
  warnings : List String
  process_finish_watermark : Option Int
deriving DecidableEq, Repr

/-- Loop state of `Batch._process_schema_history`: the evolving batch
state, the `first_folder_for_schema` flag, the cached schema, and the
pending exception (once raised, the loop body never runs again). -/
structure EpochAcc where
  st : BatchState
  firstFolder : Bool
  cached : Option Schema
  exc : Option String
deriving Repr

/-- `int(timestamp_folder.split("/")[-1])` for a folder already known to
be numeric. -/
def folderVal (folder : String) : Int := (pyParseInt (lastSeg folder)).getD 0

def schemaNotFoundMsg : String := "Schema not found"

/-- One iteration of the `for timestamp_folder in valid_timestamp_folders`
loop of `Batch._process_schema_history`.  A failed listing of the
partition is logged and the partition skipped; on the first folder the
schema timestamp is recorded, the schema is resolved (failure records an
error and raises), and the first commit uses `append` when the epoch is
part-way processed, `overwrite` otherwise; subsequent folders commit
with `append` and the unsorted file list. -/
def stepFolder (fs : Fs) (partWay : Bool) (schemaTs : Int)
    (acc : EpochAcc) (folder : String) : EpochAcc :=
  if acc.exc.isSome then acc
  else
    let tv : Int := folderVal folder
    match fs.listDir folder with
    | Except.error _ => acc
    | Except.ok listed =>
      let files := getParquetList listed
      if acc.firstFolder then
        let st1 := { acc.st with
          schema_timestamps := acc.st.schema_timestamps ++ [schemaTs] }
        match (schemaFinder fs.readSchema files).1 with
        | some sch =>
          match addTransaction st1.delta (sortParquets files) tv schemaTs
              (if partWay then Mode.append else Mode.overwrite) with
          | Except.error e =>
            { st := st1, firstFolder := false, cached := some sch, exc := some e }
          | Except.ok d =>
            { st := { st1 with
                delta := d
                watermarks := st1.watermarks ++ [tv]
                process_finish_watermark := some tv }
              firstFolder := false, cached := some sch, exc := none }
        | none =>
          { st := { st1 with errors := st1.errors ++ [schemaNotFoundMsg] }
            firstFolder := true, cached := none, exc := some schemaNotFoundMsg }
      else
        match addTransaction acc.st.delta files tv schemaTs Mode.append with
        | Except.error e => { acc with exc := some e }
        | Except.ok d =>
          { acc with st := { acc.st with
              delta := d
              watermarks := acc.st.watermarks ++ [tv]
              process_finish_watermark := some tv } }

/-- One schema-history entry as built by `Batch.process_batch`. -/
structure EpochItem where
  key : String
  uri : String
  schema_timestamp : Int
deriving DecidableEq, Repr

/-- The numeric filter of `_process_schema_history`: keep folders whose
final path component parses as an integer (warn and skip otherwise). -/
def validFolders (folders : List String) : List String :=
  folders.filter (fun f => (pyParseInt (lastSeg f)).isSome)

/-- `Batch._process_schema_history` for one epoch.  A failure while
listing the epoch directory (including the `ValueError` raised inside
`_get_dir_list` by a non-numeric directory name) is re-raised.  Returns
the updated state and the exception, if one was raised. -/
def processSchemaHistoryItem (fs : Fs) (low : Int) (st0 : BatchState)
    (item : EpochItem) : BatchState × Option String :=
  match (fs.listDir item.uri).bind (getDirList low) with
  | Except.error e => (st0, some e)
  | Except.ok (partWay, folders) =>
    let acc := (validFolders folders).foldl
      (stepFolder fs partWay item.schema_timestamp)
      { st := st0, firstFolder := true, cached := none, exc := none }
    (acc.st, acc.exc)

/-- The numeric values of the timestamp folders an epoch will iterate
over, in iteration order (empty when the epoch listing raises). -/
def epochFolderVals (fs : Fs) (low : Int) (item : EpochItem) : List Int :=
  match (fs.listDir item.uri).bind (getDirList low) with
  | Except.error _ => []
  | Except.ok (_, folders) => (validFolders folders).map folderVal

def abandonMsg (e : String) : String :=
  "Error processing schema history: " ++ e ++ " processing abandoned"

/-- The `for item in schema_history_list` loop of `Batch.process_batch`:
the first exception aborts the remaining epochs and is recorded as an
error in the result. -/
def runEpochs (fs : Fs) (low : Int) : List EpochItem → BatchState → BatchState
  | [], st => st
  | item :: rest, st =>
    match processSchemaHistoryItem fs low st item with
    | (st1, none) => runEpochs fs low rest st1
    | (st1, some e) => { st1 with errors := st1.errors ++ [abandonMsg e] }

/-- A per-table manifest entry.  `lastSuccessfulWriteTimestamp` and the
`schemaHistory` values are decimal strings in the JSON document; they are
modelled already parsed, as the `int(...)` applications in
`Batch.process_batch` produce. -/
structure ManifestEntry where
  lastSuccessfulWriteTimestamp : Int
  totalProcessedRecordsCount : Int
  dataFilesPath : String
  schemaHistory : List (String × Int)
deriving DecidableEq, Repr

/-- `self.entry["dataFilesPath"].lstrip("s3://")` of `Batch.process_batch`. -/
def strippedPath (entry : ManifestEntry) : String :=
  pyLstrip "s3://" entry.dataFilesPath

/-- Ordering of schema-history entries by value, the key of the
`sorted(..., key=lambda kv: int(kv[1]))` call in `Batch.process_batch`. -/
def bySndLe (a b : String × Int) : Prop := a.2 ≤ b.2

instance : DecidableRel bySndLe := fun a b =>
  inferInstanceAs (Decidable (a.2 ≤ b.2))

instance : IsTotal (String × Int) bySndLe := ⟨fun a b => Int.le_total a.2 b.2⟩

instance : IsTrans (String × Int) bySndLe := ⟨fun _ _ _ => Int.le_trans⟩

/-- The `sorted_schema_history` of `Batch.process_batch`: keep the
entries whose epoch timestamp is at least the recovered schema
timestamp, sorted ascending by that value (stably, as Python `sorted`). -/
def plannedSchemaHistory (lowSchemaTs : Int) (hist : List (String × Int)) :
    List (String × Int) :=
  List.insertionSort bySndLe (hist.filter (fun kv => decide (lowSchemaTs ≤ kv.2)))

/-- The `schema_history_list` of `Batch.process_batch`: each planned
epoch keyed with its source URI `{filepath.rstrip('/')}/{key}/`. -/
def epochItems (filepath : String) (planned : List (String × Int)) :
    List EpochItem :=
  planned.map (fun kv =>
    { key := kv.1
      uri := pyRstrip "/" filepath ++ "/" ++ kv.1 ++ "/"
      schema_timestamp := kv.2 })

/-- Everything `Batch.process_batch` reads: the manifest entry, the
source object store, the initial Delta state, and the recovered
watermark pair (`0` on `reset=true`, otherwise the output of
`_get_watermark_from_log`). -/
structure BatchInput where
  table_name : String
  entry : ManifestEntry
  fs : Fs
  delta0 : DeltaState
  low_watermark : Int
  watermark_schema_timestamp : Int

def initState (inp : BatchInput) : BatchState :=
  { delta := inp.delta0
    watermarks := []
    schema_timestamps := []
    errors := []
    warnings := []
    process_finish_watermark := none }

def corruptMsg : String :=
  "Skipping batch as the low watermark is -1, indicating somethings gone wrong."

def nothingNewMsg : String :=
  "Skipping batch as it matches or is older than the low watermark."

def missingDataMsg : String :=
  "Missing dataFilesPath or schemaHistory for entry"

/-- The epoch plan `Batch.process_batch` iterates over. -/
def plannedItems (inp : BatchInput) : List EpochItem :=
  epochItems (strippedPath inp.entry)
    (plannedSchemaHistory inp.watermark_schema_timestamp inp.entry.schemaHistory)

/-- `Batch.process_batch`: the corrupt-watermark skip, the nothing-new
skip, the missing-path/history skip, then the epoch loop. -/
def processBatch (inp : BatchInput) : BatchState :=
  if inp.low_watermark = -1 then
    { initState inp with
      errors := (initState inp).errors ++ [corruptMsg]
      process_finish_watermark := some inp.low_watermark }
  else if inp.entry.lastSuccessfulWriteTimestamp ≤ inp.low_watermark then
    { initState inp with
      warnings := (initState inp).warnings ++ [nothingNewMsg]
      process_finish_watermark := some inp.low_watermark }
  else if (strippedPath inp.entry).isEmpty || inp.entry.schemaHistory.isEmpty then
    { initState inp with
      errors := (initState inp).errors ++ [missingDataMsg]
      process_finish_watermark := some inp.low_watermark }
  else
    runEpochs inp.fs inp.low_watermark (plannedItems inp) (initState inp)

/-- The commits this run appended to the table (the commit log only ever
grows during a run). -/
def newCommits (inp : BatchInput) : List Commit :=
  (processBatch inp).delta.commits.drop inp.delta0.commits.length

/-- Strict lexicographic order on `(schema_timestamp, watermark)` pairs. -/
def lexLt (a b : Int × Int) : Prop := a.1 < b.1 ∨ (a.1 = b.1 ∧ a.2 < b.2)

instance : DecidableRel lexLt := fun a b =>
  inferInstanceAs (Decidable (a.1 < b.1 ∨ (a.1 = b.1 ∧ a.2 < b.2)))

/-- The metadata pair a commit carries. -/
def commitPair (c : Commit) : Int × Int := (c.schema_timestamp, c.watermark)

/-! ## Helper lemmas -/

theorem addTransaction_ok {st : DeltaState} {parquets : List ParquetInfo}
    {w t : Int} {m : Mode} {st' : DeltaState}
    (h : addTransaction st parquets w t m = Except.ok st') :
    st' = { bound := true
            commits := st.commits ++
              [{ requestedMode := m
                 effectiveMode := if st.bound then m else Mode.overwrite
                 watermark := w
                 schema_timestamp := t
                 paths := parquets.map ParquetInfo.path }] } := by
  unfold addTransaction at h
  split at h
  · cases h
  · split at h
    · cases h
    · exact (Except.ok.inj h).symm

theorem stepFolder_of_exc (fs : Fs) (p : Bool) (ts : Int) (acc : EpochAcc)
    (folder : String) (h : acc.exc.isSome) :
    stepFolder fs p ts acc folder = acc := by
  unfold stepFolder
  rw [if_pos h]

theorem foldStep_exc (fs : Fs) (p : Bool) (ts : Int) :
    ∀ (folders : List String) (acc : EpochAcc), acc.exc.isSome →
    folders.foldl (stepFolder fs p ts) acc = acc := by
  intro folders
  induction folders with
  | nil => intro acc _; rfl
  | cons f rest ih =>
    intro acc h
    rw [List.foldl_cons, stepFolder_of_exc fs p ts acc f h]
    exact ih acc h

/-- Behaviour of the whole folder loop of `_process_schema_history`: the
commit log only grows, by commits whose watermarks are (in order) among
the folder values and whose schema timestamp is the epoch's; the first
commit (if the loop starts at the first folder) carries the
partial/fresh mode, all later commits carry `append`. -/
theorem foldStep_spec (fs : Fs) (p : Bool) (ts : Int) :
    ∀ (folders : List String) (acc : EpochAcc),
    ∃ B, ((folders.foldl (stepFolder fs p ts) acc).st.delta.commits
        = acc.st.delta.commits ++ B) ∧
      (B.map Commit.watermark).Sublist (folders.map folderVal) ∧
      (∀ c ∈ B, c.schema_timestamp = ts) ∧
      (acc.firstFolder = false → ∀ c ∈ B, c.requestedMode = Mode.append) ∧
      (acc.firstFolder = true → ∀ c ∈ B.head?,
        c.requestedMode = (if p then Mode.append else Mode.overwrite)) ∧
      (∀ c ∈ B.tail, c.requestedMode = Mode.append) := by
  intro folders
  induction folders with
  | nil =>
    intro acc
    exact ⟨[], by simp, by simp, by simp, by simp, by simp, by simp⟩
  | cons f rest ih =>
    intro acc
    rw [List.foldl_cons]
    by_cases hexc : acc.exc.isSome
    · rw [stepFolder_of_exc fs p ts acc f hexc]
      obtain ⟨B, h1, h2, h3, h4, h5, h6⟩ := ih acc
      exact ⟨B, h1, h2.cons (folderVal f), h3, h4, h5, h6⟩
    · rw [Option.not_isSome_iff_eq_none] at hexc
      rcases hls : fs.listDir f with e | listed
      · have hstep : stepFolder fs p ts acc f = acc := by
          unfold stepFolder
          simp [hexc, hls]
        rw [hstep]
        obtain ⟨B, h1, h2, h3, h4, h5, h6⟩ := ih acc
        exact ⟨B, h1, h2.cons (folderVal f), h3, h4, h5, h6⟩
      · cases hff : acc.firstFolder with
        | true =>
          rcases hsf : (schemaFinder fs.readSchema (getParquetList listed)).1 with
            _ | sch
          · -- schema resolution failed: error recorded, exception raised
            have hstep : stepFolder fs p ts acc f =
                { st := { acc.st with
                    schema_timestamps := acc.st.schema_timestamps ++ [ts]
                    errors := acc.st.errors ++ [schemaNotFoundMsg] }
                  firstFolder := true, cached := none,
                  exc := some schemaNotFoundMsg } := by
              unfold stepFolder
              simp [hexc, hls, hff, hsf]
            rw [hstep, foldStep_exc fs p ts rest _ (by simp)]
            exact ⟨[], by simp, by simp, by simp, by simp, by simp, by simp⟩
          · rcases hat : addTransaction acc.st.delta
                (sortParquets (getParquetList listed)) (folderVal f) ts
                (if p then Mode.append else Mode.overwrite) with e | d
            · have hstep : stepFolder fs p ts acc f =
                  { st := { acc.st with
                      schema_timestamps := acc.st.schema_timestamps ++ [ts] }
                    firstFolder := false, cached := some sch, exc := some e } := by
                unfold stepFolder
                simp [hexc, hls, hff, hsf, hat]
              rw [hstep, foldStep_exc fs p ts rest _ (by simp)]
              exact ⟨[], by simp, by simp, by simp, by simp, by simp, by simp⟩
            · have hd := addTransaction_ok hat
              have hstep : stepFolder fs p ts acc f =
                  { st := { acc.st with
                      delta := d
                      schema_timestamps := acc.st.schema_timestamps ++ [ts]
                      watermarks := acc.st.watermarks ++ [folderVal f]
                      process_finish_watermark := some (folderVal f) }
                    firstFolder := false, cached := some sch, exc := none } := by
                unfold stepFolder
                simp [hexc, hls, hff, hsf, hat]
              rw [hstep]
              obtain ⟨B, h1, h2, h3, h4, h5, h6⟩ := ih
                { st := { acc.st with
                    delta := d
                    schema_timestamps := acc.st.schema_timestamps ++ [ts]
                    watermarks := acc.st.watermarks ++ [folderVal f]
                    process_finish_watermark := some (folderVal f) }
                  firstFolder := false, cached := some sch, exc := none }
              refine ⟨{ requestedMode := if p then Mode.append else Mode.overwrite
                        effectiveMode := if acc.st.delta.bound then
                          (if p then Mode.append else Mode.overwrite) else Mode.overwrite
                        watermark := folderVal f
                        schema_timestamp := ts
                        paths := (sortParquets (getParquetList listed)).map
                          ParquetInfo.path } :: B, ?_, ?_, ?_, ?_, ?_, ?_⟩
              · rw [h1, hd]
                simp
              · exact (h2.cons₂ (folderVal f))
              · intro c hc
                rcases List.mem_cons.mp hc with hc | hc
                · rw [hc]
                · exact h3 c hc
              · intro hcontra
                simp [hff] at hcontra
              · intro _ c hc
                rw [List.head?_cons, Option.mem_some_iff] at hc
                rw [← hc]
              · intro c hc
                exact h4 rfl c hc
        | false =>
          rcases hat : addTransaction acc.st.delta (getParquetList listed)
              (folderVal f) ts Mode.append with e | d
          · have hstep : stepFolder fs p ts acc f = { acc with exc := some e } := by
              unfold stepFolder
              simp [hexc, hls, hff, hat]
            rw [hstep, foldStep_exc fs p ts rest _ (by simp)]
            exact ⟨[], by simp, by simp, by simp, by simp, by simp, by simp⟩
          · have hd := addTransaction_ok hat
            have hstep : stepFolder fs p ts acc f =
                { acc with st := { acc.st with
                    delta := d
                    watermarks := acc.st.watermarks ++ [folderVal f]
                    process_finish_watermark := some (folderVal f) } } := by
              unfold stepFolder
              simp [hexc, hls, hff, hat]
            rw [hstep]
            obtain ⟨B, h1, h2, h3, h4, h5, h6⟩ := ih
              { acc with st := { acc.st with
                  delta := d
                  watermarks := acc.st.watermarks ++ [folderVal f]
                  process_finish_watermark := some (folderVal f) } }
            refine ⟨{ requestedMode := Mode.append
                      effectiveMode := if acc.st.delta.bound then Mode.append
                        else Mode.overwrite
                      watermark := folderVal f
                      schema_timestamp := ts
                      paths := (getParquetList listed).map ParquetInfo.path } :: B,
                ?_, ?_, ?_, ?_, ?_, ?_⟩
            · rw [h1, hd]
              simp
            · exact (h2.cons₂ (folderVal f))
            · intro c hc
              rcases List.mem_cons.mp hc with hc | hc
              · rw [hc]
              · exact h3 c hc
            · intro _ c hc
              rcases List.mem_cons.mp hc with hc | hc
              · rw [hc]
              · exact h4 hff c hc
            · intro hcontra
              simp [hff] at hcontra
            · intro c hc
              exact h4 hff c hc

/-- Per-epoch commit growth: an epoch appends commits whose watermarks
are, in order, among the epoch's folder values, all carrying the epoch's
schema timestamp. -/
theorem processItem_spec (fs : Fs) (low : Int) (st : BatchState) (item : EpochItem) :
    ∃ B, ((processSchemaHistoryItem fs low st item).1.delta.commits
        = st.delta.commits ++ B) ∧
      (B.map Commit.watermark).Sublist (epochFolderVals fs low item) ∧
      (∀ c ∈ B, c.schema_timestamp = item.schema_timestamp) := by
  rcases h : (fs.listDir item.uri).bind (getDirList low) with e | pr
  · refine ⟨[], ?_, ?_, ?_⟩
    · simp [processSchemaHistoryItem, h]
    · simp [epochFolderVals, h]
    · simp
  · obtain ⟨pw, folders⟩ := pr
    obtain ⟨B, h1, h2, h3, _, _, _⟩ := foldStep_spec fs pw item.schema_timestamp
      (validFolders folders)
      { st := st, firstFolder := true, cached := none, exc := none }
    refine ⟨B, ?_, ?_, h3⟩
    · simpa [processSchemaHistoryItem, h] using h1
    · simpa [epochFolderVals, h] using h2

/-- Commits of one epoch, all with the same schema timestamp and
strictly increasing watermarks, have lexicographically increasing
metadata pairs. -/
theorem pairsOfBlock {B : List Commit} {ts : Int}
    (hts : ∀ c ∈ B, c.schema_timestamp = ts)
    (hwm : List.Pairwise (fun a b => a < b) (B.map Commit.watermark)) :
    List.Pairwise lexLt (B.map commitPair) := by
  rw [List.pairwise_map] at hwm ⊢
  exact hwm.imp_of_mem fun {a} {b} ha hb hab =>
    Or.inr ⟨by rw [commitPair, commitPair, hts a ha, hts b hb], hab⟩

/-- The epoch loop of `process_batch` only appends commits; each commit's
schema timestamp is one of the planned epochs'; and if the planned epoch
timestamps are strictly increasing while each epoch's folder values are
strictly increasing in iteration order, the appended commits' metadata
pairs are lexicographically strictly increasing. -/
theorem runEpochs_spec (fs : Fs) (low : Int) :
    ∀ (items : List EpochItem) (st : BatchState),
    ∃ B, ((runEpochs fs low items st).delta.commits = st.delta.commits ++ B) ∧
      (∀ c ∈ B, c.schema_timestamp ∈ items.map EpochItem.schema_timestamp) ∧
      (List.Pairwise (fun a b => a < b) (items.map EpochItem.schema_timestamp) →
        (∀ it ∈ items, List.Pairwise (fun a b => a < b) (epochFolderVals fs low it)) →
        List.Pairwise lexLt (B.map commitPair)) := by
  intro items
  induction items with
  | nil =>
    intro st
    exact ⟨[], by simp [runEpochs], by simp, by simp⟩
  | cons it rest ih =>
    intro st
    obtain ⟨B1, hb1, hsub1, hts1⟩ := processItem_spec fs low st it
    rcases hpi : processSchemaHistoryItem fs low st it with ⟨st1, exc⟩
    rw [hpi] at hb1
    cases exc with
    | some e =>
      refine ⟨B1, ?_, ?_, ?_⟩
      · simp only [runEpochs, hpi]
        exact hb1
      · intro c hc
        simp [hts1 c hc]
      · intro _ hf
        exact pairsOfBlock hts1 ((hf it (by simp)).sublist hsub1)
    | none =>
      obtain ⟨B2, hb2, hmem2, hpw2⟩ := ih st1
      refine ⟨B1 ++ B2, ?_, ?_, ?_⟩
      · simp only [runEpochs, hpi]
        rw [hb2, hb1, List.append_assoc]
      · intro c hc
        rcases List.mem_append.mp hc with h | h
        · simp [hts1 c h]
        · simp only [List.map_cons, List.mem_cons]
          exact Or.inr (hmem2 c h)
      · intro hp hf
        rw [List.map_cons, List.pairwise_cons] at hp
        obtain ⟨hlt, hp2⟩ := hp
        rw [List.map_append, List.pairwise_append]
        refine ⟨pairsOfBlock hts1 ((hf it (by simp)).sublist hsub1),
          hpw2 hp2 (fun x hx => hf x (by simp [hx])), ?_⟩
        intro a ha b hb
        rcases List.mem_map.mp ha with ⟨c1, hc1, rfl⟩
        rcases List.mem_map.mp hb with ⟨c2, hc2, rfl⟩
        left
        show c1.schema_timestamp < c2.schema_timestamp
        rw [hts1 c1 hc1]
        exact hlt _ (hmem2 c2 hc2)

/-! ## Concrete runs used to witness and refute the claims -/

/-- Source store for the C1 counterexample: one epoch with timestamp
partitions `10` and `9`, whose path-string order (`.../10` before
`.../9`) disagrees with their numeric order. -/
def fsTwoDigits : Fs :=
  { listDir := fun s =>
      if s = "b/d/1/" then Except.ok
        [ { path := "b/d/1/10", ftype := FType.dir, size := 0, mtime := 0 }
        , { path := "b/d/1/9", ftype := FType.dir, size := 0, mtime := 0 } ]
      else if s = "b/d/1/10" then Except.ok
        [ { path := "b/d/1/10/a.parquet", ftype := FType.file, size := 5, mtime := 1 } ]
      else if s = "b/d/1/9" then Except.ok
        [ { path := "b/d/1/9/b.parquet", ftype := FType.file, size := 7, mtime := 2 } ]
      else Except.error "not found"
    readSchema := fun p =>
      if p = "b/d/1/10/a.parquet" then some "sch"
      else if p = "b/d/1/9/b.parquet" then some "sch"
      else none }

def inpTwoDigits : BatchInput :=
  { table_name := "t"
    entry :=
      { lastSuccessfulWriteTimestamp := 1000
        totalProcessedRecordsCount := 0
        dataFilesPath := "s3://b/d"
        schemaHistory := [("1", 500)] }
    fs := fsTwoDigits
    delta0 := { bound := false, commits := [] }
    low_watermark := 0
    watermark_schema_timestamp := 0 }

/-- Source store with two epochs, `{"1": 500}` holding partitions
`600, 700` and `{"2": 900}` holding `1000, 1100` (spec scenario 4). -/
def fsTwoEpochs : Fs :=
  { listDir := fun s =>
      if s = "b/d/1/" then Except.ok
        [ { path := "b/d/1/600", ftype := FType.dir, size := 0, mtime := 0 }
        , { path := "b/d/1/700", ftype := FType.dir, size := 0, mtime := 0 } ]
      else if s = "b/d/2/" then Except.ok
        [ { path := "b/d/2/1000", ftype := FType.dir, size := 0, mtime := 0 }
        , { path := "b/d/2/1100", ftype := FType.dir, size := 0, mtime := 0 } ]
      else if s = "b/d/1/600" then Except.ok
        [ { path := "b/d/1/600/a.parquet", ftype := FType.file, size := 5, mtime := 1 } ]
      else if s = "b/d/1/700" then Except.ok
        [ { path := "b/d/1/700/b.parquet", ftype := FType.file, size := 7, mtime := 2 } ]
      else if s = "b/d/2/1000" then Except.ok
        [ { path := "b/d/2/1000/c.parquet", ftype := FType.file, size := 5, mtime := 3 } ]
      else if s = "b/d/2/1100" then Except.ok
        [ { path := "b/d/2/1100/d.parquet", ftype := FType.file, size := 7, mtime := 4 } ]
      else Except.error "not found"
    readSchema := fun _ => some "sch" }

def inpTwoEpochs : BatchInput :=
  { table_name := "t"
    entry :=
      { lastSuccessfulWriteTimestamp := 1200
        totalProcessedRecordsCount := 0
        dataFilesPath := "s3://b/d"
        schemaHistory := [("2", 900), ("1", 500)] }
    fs := fsTwoEpochs
    delta0 := { bound := false, commits := [] }
    low_watermark := 0
    watermark_schema_timestamp := 0 }

/-- Source store whose single epoch contains a non-numeric directory
`_tmp` between the numeric partitions `600` and `700` (spec scenario 5). -/
def fsNonNumeric : Fs :=
  { listDir := fun s =>
      if s = "b/d/1/" then Except.ok
        [ { path := "b/d/1/600", ftype := FType.dir, size := 0, mtime := 0 }
        , { path := "b/d/1/_tmp", ftype := FType.dir, size := 0, mtime := 0 }
        , { path := "b/d/1/700", ftype := FType.dir, size := 0, mtime := 0 } ]
      else if s = "b/d/1/600" then Except.ok
        [ { path := "b/d/1/600/a.parquet", ftype := FType.file, size := 5, mtime := 1 } ]
      else if s = "b/d/1/700" then Except.ok
        [ { path := "b/d/1/700/b.parquet", ftype := FType.file, size := 7, mtime := 2 } ]
      else Except.error "not found"
    readSchema := fun _ => some "sch" }

def inpNonNumeric : BatchInput :=
  { table_name := "t"
    entry :=
      { lastSuccessfulWriteTimestamp := 1000
        totalProcessedRecordsCount := 0
        dataFilesPath := "s3://b/d"
        schemaHistory := [("1", 500)] }
    fs := fsNonNumeric
    delta0 := { bound := false, commits := [] }
    low_watermark := 0
    watermark_schema_timestamp := 0 }

/-! ## Claim C1 -/

/-- C1, counterexample.  The commit sequence of a full run over one epoch
with partitions `10` and `9` is `(500,10), (500,9)`: partition
directories are iterated in path-string order, which here is the reverse
of numeric order, so the claimed lexicographic strict increase of the
committed `(schema_timestamp, watermark)` pairs fails. -/
theorem c1_counterexample :
    ((newCommits inpTwoDigits).map commitPair = [(500, 10), (500, 9)]) ∧
    ¬ List.Pairwise lexLt ((newCommits inpTwoDigits).map commitPair) := by
  exact ⟨by decide, by decide⟩

/-- C1, amended.  For every run: provided the planned epochs' schema
timestamps are strictly increasing and, within each planned epoch, the
numeric folder values are strictly increasing in the path-sorted
iteration order (both hold for real CDA exports, whose partition names
are equal-length epoch-millis numerals), the committed
`(schema_timestamp, watermark)` pairs of the run are lexicographically
strictly increasing. -/
theorem c1_commit_pairs_lex_increasing (inp : BatchInput)
    (h1 : List.Pairwise (fun a b => a < b)
      ((plannedItems inp).map EpochItem.schema_timestamp))
    (h2 : ∀ it ∈ plannedItems inp, List.Pairwise (fun a b => a < b)
      (epochFolderVals inp.fs inp.low_watermark it)) :
    List.Pairwise lexLt ((newCommits inp).map commitPair) := by
  unfold newCommits processBatch
  split
  · simp [initState, List.drop_length]
  · split
    · simp [initState, List.drop_length]
    · split
      · simp [initState, List.drop_length]
      · obtain ⟨B, hb, _, hpw⟩ := runEpochs_spec inp.fs inp.low_watermark
          (plannedItems inp) (initState inp)
        rw [hb]
        simp only [initState]
        rw [List.drop_left]
        exact hpw h1 h2

/-- C1, witness: the two-epoch scenario satisfies both hypotheses and
its four commits `(500,600), (500,700), (900,1000), (900,1100)` are
lexicographically increasing. -/
theorem c1_witness :
    List.Pairwise lexLt ((newCommits inpTwoEpochs).map commitPair) :=
  c1_commit_pairs_lex_increasing inpTwoEpochs (by decide) (by decide)

/-! ## Claim C2 -/

/-- C2.  The epoch plan of `process_batch` consists of exactly the
schema-history entries whose integer value is at least the recovered
low schema timestamp (a permutation of that filter of the map), sorted
ascending by value — independent of the keys: in particular the map
`{"10": 100, "2": 200}` is planned with key `"10"` (value 100) before
key `"2"` (value 200), against their lexicographic key order. -/
theorem c2_epoch_plan_sorted_by_value (lowTs : Int) (hist : List (String × Int)) :
    (plannedSchemaHistory lowTs hist).Perm
      (hist.filter (fun kv => decide (lowTs ≤ kv.2))) ∧
    List.Sorted bySndLe (plannedSchemaHistory lowTs hist) ∧
    plannedSchemaHistory 0 [("10", 100), ("2", 200)] = [("10", 100), ("2", 200)] :=
  ⟨List.perm_insertionSort bySndLe _, List.sorted_insertionSort bySndLe _, by decide⟩

/-! ## Claim C5 -/

def entryS3Bucket : ManifestEntry :=
  { lastSuccessfulWriteTimestamp := 1000
    totalProcessedRecordsCount := 0
    dataFilesPath := "s3://s3bucket/data"
    schemaHistory := [("1", 500)] }

/-- C5, failing evaluation.  `process_batch` computes the listing root
with Python `lstrip("s3://")`, which removes leading characters drawn
from the SET `{s, 3, :, /}` rather than the five-character prefix: for
`dataFilesPath = "s3://s3bucket/data"` the code produces
`"bucket/data"`, not the `"s3bucket/data"` the claim requires. -/
theorem c5_lstrip_strips_charset :
    strippedPath entryS3Bucket = "bucket/data" ∧
    strippedPath entryS3Bucket ≠ "s3bucket/data" :=
  ⟨by decide, by decide⟩

/-! ## Claim C7 -/

/-- C7.  When the recovered low watermark is the sentinel `-1`,
`process_batch` records the corrupt-state error, emits no commit, and
finishes with `process_finish_watermark = -1`. -/
theorem c7_corrupt_watermark_skips_table (inp : BatchInput)
    (h : inp.low_watermark = -1) :
    (processBatch inp).errors = [corruptMsg] ∧
    newCommits inp = [] ∧
    (processBatch inp).watermarks = [] ∧
    (processBatch inp).process_finish_watermark = some (-1) := by
  have hpb : processBatch inp =
      { initState inp with
        errors := [corruptMsg]
        process_finish_watermark := some inp.low_watermark } := by
    unfold processBatch
    rw [if_pos h]
    simp [initState]
  refine ⟨by simp [hpb], ?_, by simp [hpb, initState], by simp [hpb, h]⟩
  simp [newCommits, hpb, initState, List.drop_length]

def inpCorrupt : BatchInput :=
  { table_name := "t"
    entry := entryS3Bucket
    fs := fsTwoEpochs
    delta0 := { bound := true, commits := [] }
    low_watermark := -1
    watermark_schema_timestamp := 500 }

/-- C7, witness at a concrete corrupt-state input. -/
theorem c7_witness :
    inpCorrupt.low_watermark = -1 ∧
    ((processBatch inpCorrupt).errors = [corruptMsg] ∧
      newCommits inpCorrupt = [] ∧
      (processBatch inpCorrupt).watermarks = [] ∧
      (processBatch inpCorrupt).process_finish_watermark = some (-1)) :=
  ⟨by decide, c7_corrupt_watermark_skips_table inpCorrupt (by decide)⟩

/-! ## Claim C9 -/

/-- C9.  A run that finds nothing new (`lastSuccessfulWriteTimestamp ≤`
the recovered low watermark, as after a previous complete run) makes
zero commits: the result carries exactly one warning, no watermarks, and
`process_finish_watermark` equal to the recovered low watermark. -/
theorem c9_nothing_new_zero_commits (inp : BatchInput)
    (h1 : inp.low_watermark ≠ -1)
    (h2 : inp.entry.lastSuccessfulWriteTimestamp ≤ inp.low_watermark) :
    (processBatch inp).warnings = [nothingNewMsg] ∧
    newCommits inp = [] ∧
    (processBatch inp).watermarks = [] ∧
    (processBatch inp).process_finish_watermark = some inp.low_watermark := by
  have hpb : processBatch inp =
      { initState inp with
        warnings := [nothingNewMsg]
        process_finish_watermark := some inp.low_watermark } := by
    unfold processBatch
    rw [if_neg h1, if_pos h2]
    simp [initState]
  refine ⟨by simp [hpb], ?_, by simp [hpb, initState], by simp [hpb]⟩
  simp [newCommits, hpb, initState, List.drop_length]

def inpNothingNew : BatchInput :=
  { table_name := "t"
    entry :=
      { lastSuccessfulWriteTimestamp := 1000
        totalProcessedRecordsCount := 0
        dataFilesPath := "s3://b/d"
        schemaHistory := [("1", 500)] }
    fs := fsTwoEpochs
    delta0 := { bound := true, commits := [] }
    low_watermark := 1000
    watermark_schema_timestamp := 500 }

/-- C9, witness: `lastSuccessfulWriteTimestamp = 1000` against a
recovered watermark of `1000` (spec scenario 1). -/
theorem c9_witness :
    inpNothingNew.low_watermark ≠ -1 ∧
    inpNothingNew.entry.lastSuccessfulWriteTimestamp ≤ inpNothingNew.low_watermark ∧
    ((processBatch inpNothingNew).warnings = [nothingNewMsg] ∧
      newCommits inpNothingNew = [] ∧
      (processBatch inpNothingNew).watermarks = [] ∧
      (processBatch inpNothingNew).process_finish_watermark = some 1000) :=
  ⟨by decide, by decide,
    c9_nothing_new_zero_commits inpNothingNew (by decide) (by decide)⟩

/-! ## Claim C4 -/

/-- C4, failing evaluation.  With partitions `600, _tmp, 700` the
`int(path.base_name)` evaluation inside the `part_list` generator of
`_get_dir_list` raises `ValueError` on `_tmp`; `_process_schema_history`
logs and re-raises, and `process_batch` records it as an error and
abandons the table.  No commit is made for the numeric partitions `600`
and `700`, no watermark is recorded, and the result carries an error
rather than the warning the claim requires. -/
theorem c4_nonnumeric_dir_aborts_table :
    (processBatch inpNonNumeric).errors =
      [abandonMsg "ValueError: invalid literal for int: _tmp"] ∧
    newCommits inpNonNumeric = [] ∧
    (processBatch inpNonNumeric).watermarks = [] ∧
    (processBatch inpNonNumeric).warnings = [] :=
  ⟨by decide, by decide, by decide, by decide⟩

/-! ## Claim C3 -/

/-- C3.  For an epoch whose listing succeeds and whose directory names
are all numeric (`partVals` returns `Except.ok`): with `part` the sorted
paths above the watermark and `full` all sorted directory paths, the
epoch appends commits `B` such that `part = []` emits nothing; in the
partial case (`|part| < |full|`) only `part`'s values are committed and
the first commit of the epoch is requested as `append`; in the fresh
case (`|part| = |full|`) the first commit is requested as `overwrite`;
and every commit after the first is requested as `append`. -/
theorem c3_epoch_mode_selection (fs : Fs) (low : Int) (st : BatchState)
    (item : EpochItem) (listed : List FileInfo) (pp : List String)
    (h1 : fs.listDir item.uri = Except.ok listed)
    (h2 : partVals low (dirEntries listed) = Except.ok pp) :
    ∃ B, ((processSchemaHistoryItem fs low st item).1.delta.commits
        = st.delta.commits ++ B) ∧
      (sortPaths pp = [] → B = []) ∧
      (sortPaths pp ≠ [] → (sortPaths pp).length < (fullList listed).length →
        (B.map Commit.watermark).Sublist ((sortPaths pp).map folderVal) ∧
        ∀ c ∈ B.head?, c.requestedMode = Mode.append) ∧
      ((sortPaths pp).length = (fullList listed).length →
        ∀ c ∈ B.head?, c.requestedMode = Mode.overwrite) ∧
      (∀ c ∈ B.tail, c.requestedMode = Mode.append) := by
  have hbind : (fs.listDir item.uri).bind (getDirList low)
      = getDirList low listed := by
    rw [h1]
    rfl
  by_cases hpe : sortPaths pp = []
  · have hdir : getDirList low listed = Except.ok (true, ([] : List String)) := by
      simp [getDirList, Except.map, h2, hpe]
    have hpsi : (processSchemaHistoryItem fs low st item).1 = st := by
      simp [processSchemaHistoryItem, hbind, hdir, validFolders]
    refine ⟨[], by simp [hpsi], fun _ => rfl, ?_, ?_, by simp⟩
    · intro h
      exact absurd hpe h
    · intro _
      simp
  · by_cases hlen : (sortPaths pp).length < (fullList listed).length
    · have hdir : getDirList low listed = Except.ok (true, sortPaths pp) := by
        simp [getDirList, Except.map, h2, hpe, hlen]
      have hpsi : (processSchemaHistoryItem fs low st item).1 =
          ((validFolders (sortPaths pp)).foldl
            (stepFolder fs true item.schema_timestamp)
            { st := st, firstFolder := true, cached := none, exc := none }).st := by
        simp [processSchemaHistoryItem, hbind, hdir]
      obtain ⟨B, hc, hsub, _, _, h5, h6⟩ := foldStep_spec fs true
        item.schema_timestamp (validFolders (sortPaths pp))
        { st := st, firstFolder := true, cached := none, exc := none }
      refine ⟨B, ?_, ?_, ?_, ?_, h6⟩
      · rw [hpsi]
        exact hc
      · intro h
        exact absurd h hpe
      · intro _ _
        refine ⟨hsub.trans ((List.filter_sublist _).map folderVal), ?_⟩
        intro c hc2
        simpa using h5 rfl c hc2
      · intro hfull
        exfalso
        omega
    · have hdir : getDirList low listed = Except.ok (false, fullList listed) := by
        simp [getDirList, Except.map, h2, hpe, hlen]
      have hpsi : (processSchemaHistoryItem fs low st item).1 =
          ((validFolders (fullList listed)).foldl
            (stepFolder fs false item.schema_timestamp)
            { st := st, firstFolder := true, cached := none, exc := none }).st := by
        simp [processSchemaHistoryItem, hbind, hdir]
      obtain ⟨B, hc, _, _, _, h5, h6⟩ := foldStep_spec fs false
        item.schema_timestamp (validFolders (fullList listed))
        { st := st, firstFolder := true, cached := none, exc := none }
      refine ⟨B, ?_, ?_, ?_, ?_, h6⟩
      · rw [hpsi]
        exact hc
      · intro h
        exact absurd h hpe
      · intro _ h
        exact absurd h hlen
      · intro _ c hc2
        simpa using h5 rfl c hc2

def stResume : BatchState :=
  { delta := { bound := true, commits := [] }
    watermarks := []
    schema_timestamps := []
    errors := []
    warnings := []
    process_finish_watermark := none }

/-- C3, witness: resuming at watermark `600` over partitions
`{600, 700}` is the partial case — only `700` is above the watermark and
the epoch's first commit is requested as `append`. -/
theorem c3_witness :
    ∃ B, ((processSchemaHistoryItem fsTwoEpochs 600 stResume
        { key := "1", uri := "b/d/1/", schema_timestamp := 500 }).1.delta.commits
        = stResume.delta.commits ++ B) ∧
      (sortPaths ["b/d/1/700"] = [] → B = []) ∧
      (sortPaths ["b/d/1/700"] ≠ [] →
        (sortPaths ["b/d/1/700"]).length <
          (fullList [ { path := "b/d/1/600", ftype := FType.dir, size := 0, mtime := 0 }
            , { path := "b/d/1/700", ftype := FType.dir, size := 0, mtime := 0 } ]).length →
        (B.map Commit.watermark).Sublist ((sortPaths ["b/d/1/700"]).map folderVal) ∧
        ∀ c ∈ B.head?, c.requestedMode = Mode.append) ∧
      ((sortPaths ["b/d/1/700"]).length =
          (fullList [ { path := "b/d/1/600", ftype := FType.dir, size := 0, mtime := 0 }
            , { path := "b/d/1/700", ftype := FType.dir, size := 0, mtime := 0 } ]).length →
        ∀ c ∈ B.head?, c.requestedMode = Mode.overwrite) ∧
      (∀ c ∈ B.tail, c.requestedMode = Mode.append) :=
  c3_epoch_mode_selection fsTwoEpochs 600 stResume
    { key := "1", uri := "b/d/1/", schema_timestamp := 500 }
    [ { path := "b/d/1/600", ftype := FType.dir, size := 0, mtime := 0 }
    , { path := "b/d/1/700", ftype := FType.dir, size := 0, mtime := 0 } ]
    ["b/d/1/700"] rfl rfl

/-! ## Claim C6 -/

theorem tryFiles_none (rs : String → Option Schema) :
    ∀ l : List ParquetInfo,
    ((tryFiles rs l).1 = none ↔ ∀ f ∈ l, rs f.relative_path = none) := by
  intro l
  induction l with
  | nil => simp [tryFiles]
  | cons f rest ih =>
    cases hrs : rs f.relative_path with
    | some s => simp [tryFiles, hrs]
    | none => simp [tryFiles, hrs, ih]

theorem tryFiles_some (rs : String → Option Schema) :
    ∀ (l : List ParquetInfo) (s : Schema), (tryFiles rs l).1 = some s →
    ∃ pre g post, l = pre ++ g :: post ∧ rs g.relative_path = some s ∧
      (∀ q ∈ pre, rs q.relative_path = none) ∧
      (tryFiles rs l).2 = pre.map schemaWarnMsg := by
  intro l
  induction l with
  | nil => intro s hs; simp [tryFiles] at hs
  | cons f rest ih =>
    intro s hs
    cases hrs : rs f.relative_path with
    | some s0 =>
      rw [tryFiles, hrs] at hs ⊢
      refine ⟨[], f, rest, by simp, ?_, by simp, by simp⟩
      rw [hrs]
      simpa using hs
    | none =>
      rw [tryFiles, hrs] at hs ⊢
      obtain ⟨pre, g, post, hl, hg, hpre, hws⟩ := ih s hs
      refine ⟨f :: pre, g, post, by simp [hl], hg, ?_, by simp [hws]⟩
      intro q hq
      rcases List.mem_cons.mp hq with hq | hq
      · rw [hq, hrs]
      · exact hpre q hq

/-- C6.  Schema resolution over a non-empty list of parquet descriptors
attempts exactly the files of the list reordered ascending by `size`
(a stable sort, so a permutation); it fails precisely when every file's
footer fails to yield a schema; and on success it returns the schema of
the first file in that order whose footer succeeds, having logged one
warning per earlier failure. -/
theorem c6_schema_resolution (rs : String → Option Schema)
    (files : List ParquetInfo) ( _hne : files ≠ []) :
    (sortParquets files).Perm files ∧
    List.Sorted bySizeLe (sortParquets files) ∧
    ((schemaFinder rs files).1 = none ↔ ∀ f ∈ files, rs f.relative_path = none) ∧
    (∀ s, (schemaFinder rs files).1 = some s →
      ∃ pre g post, sortParquets files = pre ++ g :: post ∧
        rs g.relative_path = some s ∧
        (∀ q ∈ pre, rs q.relative_path = none) ∧
        (schemaFinder rs files).2 = pre.map schemaWarnMsg) := by
  refine ⟨List.perm_insertionSort bySizeLe files,
    List.sorted_insertionSort bySizeLe files, ?_, ?_⟩
  · rw [schemaFinder, tryFiles_none]
    constructor
    · intro h f hf
      exact h f ((List.perm_insertionSort bySizeLe files).mem_iff.mpr hf)
    · intro h f hf
      exact h f ((List.perm_insertionSort bySizeLe files).mem_iff.mp hf)
  · intro s hs
    exact tryFiles_some rs (sortParquets files) s hs

def smallBad : ParquetInfo :=
  { relative_path := "d/small.parquet", path := "s3://d/small.parquet"
    last_modified := 1, size := 3 }

def bigGood : ParquetInfo :=
  { relative_path := "d/big.parquet", path := "s3://d/big.parquet"
    last_modified := 2, size := 7 }

def rsCorruptSmall : String → Option Schema := fun p =>
  if p = "d/big.parquet" then some "sch" else none

/-- C6, witness: two parquets with the smaller one unreadable (spec
scenario 6): resolution sorts `[big, small]` into `[small, big]`, warns
on `small`, and returns `big`'s schema. -/
theorem c6_witness :
    (sortParquets [bigGood, smallBad]).Perm [bigGood, smallBad] ∧
    List.Sorted bySizeLe (sortParquets [bigGood, smallBad]) ∧
    ((schemaFinder rsCorruptSmall [bigGood, smallBad]).1 = none ↔
      ∀ f ∈ [bigGood, smallBad], rsCorruptSmall f.relative_path = none) ∧
    (∀ s, (schemaFinder rsCorruptSmall [bigGood, smallBad]).1 = some s →
      ∃ pre g post, sortParquets [bigGood, smallBad] = pre ++ g :: post ∧
        rsCorruptSmall g.relative_path = some s ∧
        (∀ q ∈ pre, rsCorruptSmall q.relative_path = none) ∧
        (schemaFinder rsCorruptSmall [bigGood, smallBad]).2
          = pre.map schemaWarnMsg) :=
  c6_schema_resolution rsCorruptSmall [bigGood, smallBad] (by decide)

/-! ## Claim C8 -/

/-- C8.  Reading the last commit's metadata is a total function (the
embedding returns a value on every input, mirroring the catch-all
`except` of `_get_watermark_from_log`): it returns `(0,0)` when no table
is bound; a raising `history()` yields `(0,0)` with a warning; an empty
history yields `(0,0)`; a missing field defaults to `0`; present,
parsing fields are returned as parsed; and a malformed field (a string
Python `int` rejects) yields `(0,0)` with a warning. -/
theorem c8_watermark_read_total (msg : String) (e : HistEntry)
    (rest : List HistEntry) (history : Except String (List HistEntry)) :
    (getWatermarkFromLog false history = ((0, 0), false)) ∧
    (getWatermarkFromLog true (Except.error msg) = ((0, 0), true)) ∧
    (getWatermarkFromLog true (Except.ok []) = ((0, 0), false)) ∧
    (lookupParam e.operationParameters "watermark" = none →
      paramVal e.operationParameters "watermark" = some 0) ∧
    (∀ w t, paramVal e.operationParameters "watermark" = some w →
      paramVal e.operationParameters "schema_timestamp" = some t →
      getWatermarkFromLog true (Except.ok (e :: rest)) = ((w, t), false)) ∧
    ((paramVal e.operationParameters "watermark" = none ∨
      paramVal e.operationParameters "schema_timestamp" = none) →
      getWatermarkFromLog true (Except.ok (e :: rest)) = ((0, 0), true)) := by
  refine ⟨by simp [getWatermarkFromLog], rfl, rfl, ?_, ?_, ?_⟩
  · intro h
    simp [paramVal, h]
  · intro w t hw ht
    simp [getWatermarkFromLog, hw, ht]
  · intro h
    rcases hw : paramVal e.operationParameters "watermark" with _ | w
    · simp [getWatermarkFromLog, hw]
    · rcases ht : paramVal e.operationParameters "schema_timestamp" with _ | t
      · simp [getWatermarkFromLog, hw, ht]
      · rcases h with h | h
        · rw [hw] at h
          cases h
        · rw [ht] at h
          cases h

def histGood : HistEntry :=
  { operationParameters := [("watermark", "700"), ("schema_timestamp", "500")] }

def histBad : HistEntry :=
  { operationParameters := [("watermark", "oops")] }

/-- C8, witness: a well-formed last commit yields its stored pair; a
malformed watermark string yields `(0,0)` with a warning (and its
missing `schema_timestamp` would have defaulted to `0`). -/
theorem c8_witness :
    getWatermarkFromLog true (Except.ok [histGood]) = ((700, 500), false) ∧
    getWatermarkFromLog true (Except.ok [histBad]) = ((0, 0), true) :=
  ⟨(c8_watermark_read_total "m" histGood [] (Except.ok [])).2.2.2.2.1
      700 500 (by decide) (by decide),
    (c8_watermark_read_total "m" histBad [] (Except.ok [])).2.2.2.2.2
      (Or.inl (by decide))⟩

/-! ## Claim C10 -/

/-- C10.  A timestamp partition listed successfully but containing zero
parquet files aborts the table: at the epoch's first partition, schema
resolution over the empty list fails, recording the error and raising;
at a later partition, `add_transaction` rejects the empty list with
`DeltaValidationError`; once an exception is pending no later partition
of the epoch commits; and an epoch exception makes `process_batch`
record the error and abandon all remaining epochs.  By contrast, a
partition whose file listing raises is merely logged and skipped. -/
theorem c10_empty_partition_aborts (fs : Fs) (p : Bool) (ts : Int)
    (acc : EpochAcc) (folder : String) (listed : List FileInfo)
    (item : EpochItem) (rest : List EpochItem) (st st1 : BatchState)
    (low : Int) (e : String) :
    (acc.exc = none → acc.firstFolder = true →
      fs.listDir folder = Except.ok listed → getParquetList listed = [] →
      (stepFolder fs p ts acc folder).exc = some schemaNotFoundMsg ∧
      (stepFolder fs p ts acc folder).st.delta.commits = acc.st.delta.commits ∧
      (stepFolder fs p ts acc folder).st.errors
        = acc.st.errors ++ [schemaNotFoundMsg]) ∧
    (acc.exc = none → acc.firstFolder = false →
      fs.listDir folder = Except.ok listed → getParquetList listed = [] →
      stepFolder fs p ts acc folder = { acc with exc := some emptyParquetsMsg }) ∧
    (acc.exc.isSome → stepFolder fs p ts acc folder = acc) ∧
    (acc.exc = none → fs.listDir folder = Except.error e →
      stepFolder fs p ts acc folder = acc) ∧
    (processSchemaHistoryItem fs low st item = (st1, some e) →
      runEpochs fs low (item :: rest) st
        = { st1 with errors := st1.errors ++ [abandonMsg e] }) := by
  refine ⟨?_, ?_, ?_, ?_, ?_⟩
  · intro hexc hff hls hempty
    have hstep : stepFolder fs p ts acc folder =
        { st := { acc.st with
            schema_timestamps := acc.st.schema_timestamps ++ [ts]
            errors := acc.st.errors ++ [schemaNotFoundMsg] }
          firstFolder := true, cached := none,
          exc := some schemaNotFoundMsg } := by
      unfold stepFolder
      simp [hexc, hls, hff, hempty, schemaFinder, sortParquets, tryFiles,
        List.insertionSort]
    rw [hstep]
    exact ⟨rfl, rfl, rfl⟩
  · intro hexc hff hls hempty
    unfold stepFolder
    simp [hexc, hls, hff, hempty, addTransaction]
  · intro h
    exact stepFolder_of_exc fs p ts acc folder h
  · intro hexc hls
    unfold stepFolder
    simp [hexc, hls]
  · intro h
    simp [runEpochs, h]

def stEmpty : BatchState :=
  { delta := { bound := true, commits := [] }
    watermarks := []
    schema_timestamps := []
    errors := []
    warnings := []
    process_finish_watermark := none }

def accEmpty : EpochAcc :=
  { st := stEmpty, firstFolder := true, cached := none, exc := none }

/-- A store whose single partition directory lists no parquet files. -/
def fsNoParquet : Fs :=
  { listDir := fun s =>
      if s = "b/d/1/600" then Except.ok []
      else Except.error "not found"
    readSchema := fun _ => none }

/-- C10, witness: a first partition with zero parquet files raises the
schema-resolution error, records it, and emits no commit; and a pending
exception makes the next partition a no-op. -/
theorem c10_witness :
    ((stepFolder fsNoParquet true 500 accEmpty "b/d/1/600").exc
      = some schemaNotFoundMsg ∧
    (stepFolder fsNoParquet true 500 accEmpty "b/d/1/600").st.delta.commits
      = accEmpty.st.delta.commits ∧
    (stepFolder fsNoParquet true 500 accEmpty "b/d/1/600").st.errors
      = accEmpty.st.errors ++ [schemaNotFoundMsg]) ∧
    stepFolder fsNoParquet true 500
      (stepFolder fsNoParquet true 500 accEmpty "b/d/1/600") "b/d/1/700"
      = stepFolder fsNoParquet true 500 accEmpty "b/d/1/600" :=
  ⟨(c10_empty_partition_aborts fsNoParquet true 500 accEmpty "b/d/1/600" []
      { key := "1", uri := "b/d/1/", schema_timestamp := 500 } [] stEmpty stEmpty
      0 "err").1 rfl rfl rfl rfl,
    (c10_empty_partition_aborts fsNoParquet true 500
      (stepFolder fsNoParquet true 500 accEmpty "b/d/1/600") "b/d/1/700" []
      { key := "1", uri := "b/d/1/", schema_timestamp := 500 } [] stEmpty stEmpty
      0 "err").2.2.1 (by decide)⟩

end Guidewire
